import Mathlib

/-!
Verification of the Q-learning agent of the Frogger-QTable repository
(`a4_base/agent/agent.py`), as a shallow embedding: Python floats become
rationals, the Q-table dictionary becomes an association list, the durable
JSON file becomes an optional snapshot carried in the agent state, and
randomness becomes explicit parameters (the draw of `random.randrange(0, 100)`
and the index drawn by `random.choice`).
-/

namespace Frogger

/-- Modelled from the spec: the fixed, ordered action vocabulary
`State.ACTIONS = ['u', 'd', 'l', 'r', '_']` lives in `state.py`, which is not
part of the provided sources; its order is given by the spec (§6, canonical
action order `[up, down, left, right, stay]`) and by the comment in
`Agent.actionToIndex`. -/
def ACTIONS : List String := ["u", "d", "l", "r", "_"]

/-- Modelled from the spec: the raw game state (`State` in `state.py`, not in
the provided sources).  Per spec §3 it exposes the agent grid position, a cell
accessor returning the occupant symbol or absent, the terminal flags and the
score.  Extra structure of the real class is irrelevant to the core. -/
structure RawState where
  frog_x : Int
  frog_y : Int
  get : Int → Int → Option Char
  at_goal : Bool
  is_done : Bool
  score : ℚ

/-- Python `self.get(x, y) or '_'`: the occupant symbol with `'_'` substituted for an
absent cell. -/
def cellOr (s : RawState) (x y : Int) : Char :=
  (s.get x y).getD '_'

/-- The 20 window cells read by `Q_State._compute_key`, in the exact source
order: the row one ahead, the row two ahead, the current row, the row behind,
each scanned over columns `frog_x - 2 .. frog_x + 2`. -/
def window (s : RawState) : List Char :=
  [cellOr s (s.frog_x - 2) (s.frog_y - 1),
   cellOr s (s.frog_x - 1) (s.frog_y - 1),
   cellOr s s.frog_x (s.frog_y - 1),
   cellOr s (s.frog_x + 1) (s.frog_y - 1),
   cellOr s (s.frog_x + 2) (s.frog_y - 1),
   cellOr s (s.frog_x - 2) (s.frog_y - 2),
   cellOr s (s.frog_x - 1) (s.frog_y - 2),
   cellOr s s.frog_x (s.frog_y - 2),
   cellOr s (s.frog_x + 1) (s.frog_y - 2),
   cellOr s (s.frog_x + 2) (s.frog_y - 2),
   cellOr s (s.frog_x - 2) s.frog_y,
   cellOr s (s.frog_x - 1) s.frog_y,
   cellOr s s.frog_x s.frog_y,
   cellOr s (s.frog_x + 1) s.frog_y,
   cellOr s (s.frog_x + 2) s.frog_y,
   cellOr s (s.frog_x - 2) (s.frog_y + 1),
   cellOr s (s.frog_x - 1) (s.frog_y + 1),
   cellOr s s.frog_x (s.frog_y + 1),
   cellOr s (s.frog_x + 1) (s.frog_y + 1),
   cellOr s (s.frog_x + 2) (s.frog_y + 1)]

/-- Embeds `Q_State._compute_key`: `''.join` of the 20 window symbols. -/
def compute_key (s : RawState) : String :=
  String.mk (window s)

/-- Embeds `Q_State.reward`. -/
def reward (s : RawState) : ℚ :=
  if s.at_goal then s.score
  else if s.is_done then -10
  else 0

/-- The Q-table `self.q`: a `dict` mapping state-key strings to lists of
numbers, embedded as an association list whose first binding for a key is
authoritative. -/
abbrev VTable := List (String × List ℚ)

/-- Dictionary lookup `self.q[key]` (`none` models a `KeyError`). -/
def vlookup (t : VTable) (k : String) : Option (List ℚ) :=
  match t with
  | [] => none
  | (k', v) :: rest => if k = k' then some v else vlookup rest k

/-- Dictionary assignment `self.q[key] = v`: replaces the binding when the key
is present, appends it otherwise. -/
def vset (t : VTable) (k : String) (v : List ℚ) : VTable :=
  match t with
  | [] => [(k, v)]
  | (k', v') :: rest => if k = k' then (k, v) :: rest else (k', v') :: vset rest k v

/-- Embeds `self.alpha` (default `0.1`). -/
def alpha : ℚ := 1 / 10

/-- Embeds `self.gamma` (default `0.6`). -/
def gamma : ℚ := 6 / 10

/-- Embeds `self.epsilon` (set to `0` in `__init__` for competition). -/
def epsilon : ℚ := 0

/-- The mutable fields of `Agent` used by the learning loop: the in-memory
table, the durable image of the table file (`none` when the file is missing),
the pending prior transition (`prevState.key`, `prevAction`), and the `train`
argument. -/
structure AgentS where
  q : VTable
  file : Option VTable
  prev : Option (String × String)
  train : Option String
  deriving DecidableEq

/-- Embeds `Agent.save`: writes the complete in-memory table over the durable image. -/
def save (ag : AgentS) : AgentS :=
  { ag with file := some ag.q }

/-- Embeds `Agent.load` run at construction time: reading the file succeeds exactly
when the durable image exists; on `IOError`, training mode keeps the empty
table while inference mode re-raises.  Returns the table `self.q` holds after
`load`, or the raised exception message. -/
def load (file : Option VTable) (train : Option String) : Except String VTable :=
  match file with
  | some t => Except.ok t
  | none =>
    match train with
    | some _ => Except.ok []
    | none => Except.error "File does not exist"

/-- Embeds `Agent.__init__`: sets `self.q = {}`, then `load`; an exception raised by
`load` propagates out of the constructor. -/
def initAgent (train : Option String) (file : Option VTable) : Except String AgentS :=
  (load file train).map (fun q => ⟨q, file, none, train⟩)

/-- Embeds `Agent.addNewStateToQTable`. -/
def addNewStateToQTable (ag : AgentS) (stateKey : String) : AgentS :=
  save { ag with q := vset ag.q stateKey [0, 0, 0, 0, 0] }

/-- The get-or-initialize step at the top of `Agent.choose_action`
(`if currStateKey not in self.q: self.addNewStateToQTable(currStateKey)`). -/
def getOrInit (ag : AgentS) (key : String) : AgentS :=
  if (vlookup ag.q key).isSome then ag else addNewStateToQTable ag key

/-- Python `max(list)` (`none` models the `ValueError` on an empty list). -/
def listMax : List ℚ → Option ℚ
  | [] => none
  | x :: xs =>
    match listMax xs with
    | none => some x
    | some m => some (max x m)

/-- Python `list.index(x)`: index of the first occurrence. -/
def idxOf (x : ℚ) : List ℚ → Option Nat
  | [] => none
  | y :: ys => if y = x then some 0 else (idxOf x ys).map (· + 1)

/-- Embeds `Agent.pickBestAction`: `State.ACTIONS[actionValues.index(max(actionValues))]`. -/
def pickBestAction (q : VTable) (stateKey : String) : Option String :=
  match vlookup q stateKey with
  | none => none
  | some actionValues =>
    match listMax actionValues with
    | none => none
    | some m =>
      match idxOf m actionValues with
      | none => none
      | some i => ACTIONS[i]?

/-- Embeds `Agent.pickRandomAction`: `random.choice(State.ACTIONS)`, with the drawn
index made explicit. -/
def pickRandomAction (randChoice : Fin 5) : String :=
  ACTIONS.get (Fin.cast (by decide) randChoice)

/-- Embeds `Agent.actionToIndex` (falls off the end, i.e. returns `None`, on any
other string). -/
def actionToIndex (actionString : String) : Option Nat :=
  if actionString = "u" then some 0
  else if actionString = "d" then some 1
  else if actionString = "l" then some 2
  else if actionString = "r" then some 3
  else if actionString = "_" then some 4
  else none

/-- Embeds `Agent.findBestAction`: draw `rand = random.randrange(0, 100)`; the
exploration branch is taken when `rand <= epsilon * 100`. -/
def findBestAction (q : VTable) (eps : ℚ) (rand : Nat) (randChoice : Fin 5)
    (stateKey : String) : Option String :=
  if (rand : ℚ) ≤ eps * 100 then some (pickRandomAction randChoice)
  else pickBestAction q stateKey

/-- The scalar assignment of `Agent.updateQTable`:
`(1-alpha)*oldQ + alpha*(R + gamma*maxNext)`. -/
def qUpdate (oldQ R maxNext : ℚ) : ℚ :=
  (1 - alpha) * oldQ + alpha * (R + gamma * maxNext)

/-- Embeds `Agent.updateQTable`: reads the prior transition from `self.prevState` /
`self.prevAction` (its `prevStateKey` parameter is immediately overwritten and
`currStateAction` is unused), computes `max(self.q[currStateKey])`, and
overwrites `self.q[prevStateKey][prevActionIndex]`, then saves.  `none` models
the uncaught exceptions (`AttributeError` when no prior state exists,
`TypeError` from an invalid action string, `KeyError`, `ValueError` on an
empty vector, `IndexError` on a short vector). -/
def updateQTable (ag : AgentS) (currStateKey : String) (R : ℚ) : Option AgentS :=
  match ag.prev with
  | none => none
  | some (prevStateKey, prevAction) =>
    match actionToIndex prevAction with
    | none => none
    | some prevActionIndex =>
      match vlookup ag.q currStateKey with
      | none => none
      | some currVec =>
        match listMax currVec with
        | none => none
        | some maxOfCurrActions =>
          match vlookup ag.q prevStateKey with
          | none => none
          | some prevVec =>
            match prevVec[prevActionIndex]? with
            | none => none
            | some oldQ =>
              some (save { ag with
                q := vset ag.q prevStateKey
                  (prevVec.set prevActionIndex (qUpdate oldQ R maxOfCurrActions)) })

/-- The distinguishable failure modes of `Agent.qLearning`:
`unboundAction` is the `UnboundLocalError` raised by `return action` when the
guard `currStateKey in self.q` was false; the other two wrap exceptions raised
inside the guarded branch. -/
inductive QErr where
  | unboundAction
  | selectError
  | updateError
  deriving DecidableEq

/-- Embeds `Agent.qLearning`, factored over the computed key and observed reward:
inside the guard it first selects `action = findBestAction(currStateKey)` and
only then calls `updateQTable`; outside the guard, `action` was never
assigned. -/
def qLearningK (ag : AgentS) (eps : ℚ) (rand : Nat) (randChoice : Fin 5)
    (currStateKey : String) (R : ℚ) : Except QErr (String × AgentS) :=
  if (vlookup ag.q currStateKey).isSome then
    match findBestAction ag.q eps rand randChoice currStateKey with
    | none => Except.error QErr.selectError
    | some action =>
      match updateQTable ag currStateKey R with
      | none => Except.error QErr.updateError
      | some ag' => Except.ok (action, ag')
  else Except.error QErr.unboundAction

/-- Embeds `Agent.qLearning` on a raw state: recomputes the key and the reward from
the state string. -/
def qLearning (ag : AgentS) (eps : ℚ) (rand : Nat) (randChoice : Fin 5)
    (s : RawState) : Except QErr (String × AgentS) :=
  qLearningK ag eps rand randChoice (compute_key s) (reward s)

/-- Embeds `Agent.choose_action`: get-or-initialize the current key, then either the
first-run branch (no prior transition) or the `qLearning` branch; on success
the prior transition is overwritten with the current key and returned
action. -/
def choose_action (ag : AgentS) (eps : ℚ) (rand : Nat) (randChoice : Fin 5)
    (s : RawState) : Except QErr (String × AgentS) :=
  let currStateKey := compute_key s
  let ag1 := getOrInit ag currStateKey
  match ag1.prev with
  | none =>
    match findBestAction ag1.q eps rand randChoice currStateKey with
    | none => Except.error QErr.selectError
    | some bestAction =>
      Except.ok (bestAction, { ag1 with prev := some (currStateKey, bestAction) })
  | some _ =>
    match qLearning ag1 eps rand randChoice s with
    | Except.error e => Except.error e
    | Except.ok (bestAction, ag2) =>
      Except.ok (bestAction, { ag2 with prev := some (compute_key s, bestAction) })

/-! ## Helper lemmas about the table operations -/

theorem vlookup_vset_self (t : VTable) (k : String) (v : List ℚ) :
    vlookup (vset t k v) k = some v := by
  induction t with
  | nil => simp [vset, vlookup]
  | cons p rest ih =>
    obtain ⟨k', v'⟩ := p
    by_cases h : k = k'
    · simp [vset, h, vlookup]
    · simp [vset, h, vlookup, ih]

theorem vlookup_vset_ne (t : VTable) (k k0 : String) (v : List ℚ) (h : k0 ≠ k) :
    vlookup (vset t k v) k0 = vlookup t k0 := by
  induction t with
  | nil => simp [vset, vlookup, h]
  | cons p rest ih =>
    obtain ⟨k', v'⟩ := p
    by_cases hk : k = k'
    · subst hk
      simp [vset, vlookup, h]
    · simp [vset, hk, vlookup, ih]

/-! ## Sample inputs used by the concrete theorems -/

/-- A raw state that reached the goal (with `is_done` also set). -/
def sGoalDone : RawState := ⟨0, 0, fun _ _ => none, true, true, 5⟩

/-- A raw state that ended the episode without reaching the goal. -/
def sFail : RawState := ⟨0, 0, fun _ _ => none, false, true, 5⟩

/-- A non-terminal raw state. -/
def sMid : RawState := ⟨0, 0, fun _ _ => none, false, false, 5⟩

/-- A one-key table whose greedy action at `"k"` is `"u"` (value 7). -/
def exploreTable : VTable := [("k", [7, 3, 0, 0, 0])]

/-- An agent with an empty table and no prior transition. -/
def agEmpty : AgentS := ⟨[], none, none, some "t"⟩

/-! ## Claims -/

/-- Claim C4: `reward` returns the score when `at_goal` holds (even when
`is_done` also holds), `-10` when `is_done` holds without `at_goal`, and `0`
otherwise. -/
theorem reward_cases (s : RawState) :
    (s.at_goal = true → reward s = s.score) ∧
    (s.at_goal = false → s.is_done = true → reward s = -10) ∧
    (s.at_goal = false → s.is_done = false → reward s = 0) := by
  refine ⟨fun h1 => ?_, fun h1 h2 => ?_, fun h1 h2 => ?_⟩
  · simp [reward, h1]
  · simp [reward, h1, h2]
  · simp [reward, h1, h2]

/-- Witness for C4 at the three concrete sample states. -/
theorem reward_cases_witness :
    reward sGoalDone = 5 ∧ reward sFail = -10 ∧ reward sMid = 0 :=
  ⟨(reward_cases sGoalDone).1 rfl, (reward_cases sFail).2.1 rfl rfl,
   (reward_cases sMid).2.2 rfl rfl⟩

/-- Claim C1 (refuted as stated, the code contradicting its own comment): with
`epsilon = 0` the exploration branch of `findBestAction` is still taken when
the draw `rand = random.randrange(0, 100)` is `0`, because the guard is
`rand <= epsilon * 100` with a non-strict comparison.  At `rand = 0` the
returned action is whatever `random.choice` picks (here `"d"`, or `"r"` on a
different draw), not the greedy action `"u"`. -/
theorem findBestAction_epsilon_zero_explores :
    findBestAction exploreTable epsilon 0 1 "k" = some "d" ∧
    findBestAction exploreTable epsilon 0 3 "k" = some "r" ∧
    pickBestAction exploreTable "k" = some "u" ∧
    findBestAction exploreTable epsilon 1 1 "k" = some "u" := by
  refine ⟨?_, ?_, ?_, ?_⟩ <;>
    norm_num [findBestAction, epsilon, pickRandomAction, pickBestAction,
      exploreTable, vlookup, listMax, idxOf, ACTIONS] <;> decide

/-- Claim C7: constructing the agent with a missing durable table raises in
inference mode but silently starts from the empty table in training mode;
when the file exists, its contents become the table in both modes. -/
theorem initAgent_load_cases (train : Option String) (file : Option VTable) :
    (file = none → train = none → ∃ e, initAgent train file = Except.error e) ∧
    (file = none → train.isSome →
      ∃ ag, initAgent train file = Except.ok ag ∧ ag.q = [] ∧ ag.train = train) ∧
    (∀ t, file = some t → ∃ ag, initAgent train file = Except.ok ag ∧ ag.q = t) := by
  refine ⟨fun hf ht => ?_, fun hf ht => ?_, fun t hf => ?_⟩
  · subst hf; subst ht
    exact ⟨_, rfl⟩
  · subst hf
    cases train with
    | none => simp at ht
    | some name => exact ⟨_, rfl, rfl, rfl⟩
  · subst hf
    exact ⟨_, rfl, rfl⟩

/-- Witness for C7: the error case, the fresh-training case and the
loaded-table case at concrete inputs. -/
theorem initAgent_load_cases_witness :
    (∃ e, initAgent none none = Except.error e) ∧
    (∃ ag, initAgent (some "t") none = Except.ok ag ∧ ag.q = [] ∧
      ag.train = some "t") ∧
    (∃ ag, initAgent (some "t") (some exploreTable) = Except.ok ag ∧
      ag.q = exploreTable) :=
  ⟨(initAgent_load_cases none none).1 rfl rfl,
   (initAgent_load_cases (some "t") none).2.1 rfl rfl,
   (initAgent_load_cases (some "t") (some exploreTable)).2.2 exploreTable rfl⟩

/-- Claim C5: the get-or-initialize step inserts the five-zero vector for an
absent key and persists the table, and leaves the agent untouched for a
present key. -/
theorem getOrInit_spec (ag : AgentS) (key : String) :
    (vlookup ag.q key = none →
      vlookup (getOrInit ag key).q key = some [0, 0, 0, 0, 0] ∧
      (getOrInit ag key).file = some (getOrInit ag key).q) ∧
    (∀ v, vlookup ag.q key = some v → getOrInit ag key = ag) := by
  constructor
  · intro h
    simp [getOrInit, h, addNewStateToQTable, save, vlookup_vset_self]
  · intro v h
    simp [getOrInit, h]

/-- Witness for C5: inserting `"k"` into the empty agent yields the zero
vector and persists; a second get-or-initialize is the identity. -/
theorem getOrInit_spec_witness :
    vlookup (getOrInit agEmpty "k").q "k" = some [0, 0, 0, 0, 0] ∧
    (getOrInit agEmpty "k").file = some (getOrInit agEmpty "k").q ∧
    getOrInit (getOrInit agEmpty "k") "k" = getOrInit agEmpty "k" :=
  ⟨((getOrInit_spec agEmpty "k").1 rfl).1,
   ((getOrInit_spec agEmpty "k").1 rfl).2,
   (getOrInit_spec (getOrInit agEmpty "k") "k").2 [0, 0, 0, 0, 0]
     (by norm_num [getOrInit, agEmpty, addNewStateToQTable, save, vset, vlookup])⟩

/-- Repeated application of the update rule at fixed `R = 10`, `maxNext = 0`,
starting from `Q = 0` (spec §8, update convergence direction). -/
def qIter : Nat → ℚ
  | 0 => 0
  | n + 1 => qUpdate (qIter n) 10 0

/-- An agent whose prior transition is `("s", "d")` with table entries for
`"s"` and `"t"`. -/
def c3Agent : AgentS :=
  ⟨[("s", [2, 0, 0, 0, 0]), ("t", [0, 4, 0, 0, 0])], none, some ("s", "d"), none⟩

/-- Claim C3: the update writes
`Q(s,a) := (1 - alpha)*Q(s,a) + alpha*(R + gamma*max(Q(s')))` with
`alpha = 1/10` and `gamma = 6/10`; one application to `Q = 0` with `R = 10`,
`maxNext = 0` gives exactly `1`, and iterating that same update is strictly
increasing yet always below `10`. -/
theorem updateQTable_formula :
    (∀ (ag : AgentS) (currKey : String) (R : ℚ) (pk pa : String) (i : Nat)
        (currVec prevVec : List ℚ) (m oldQ : ℚ),
      ag.prev = some (pk, pa) →
      actionToIndex pa = some i →
      vlookup ag.q currKey = some currVec →
      listMax currVec = some m →
      vlookup ag.q pk = some prevVec →
      prevVec[i]? = some oldQ →
      ∃ ag', updateQTable ag currKey R = some ag' ∧
        vlookup ag'.q pk =
          some (prevVec.set i ((1 - 1 / 10) * oldQ + 1 / 10 * (R + 6 / 10 * m)))) ∧
    qUpdate 0 10 0 = 1 ∧ StrictMono qIter ∧ ∀ n, qIter n < 10 := by
  have hstep : ∀ x : ℚ, qUpdate x 10 0 = 9 / 10 * x + 1 := by
    intro x
    simp only [qUpdate, alpha, gamma]
    ring
  have hlt : ∀ n, qIter n < 10 := by
    intro n
    induction n with
    | zero => norm_num [qIter]
    | succ n ih =>
      have h1 : qIter (n + 1) = 9 / 10 * qIter n + 1 := hstep (qIter n)
      rw [h1]
      linarith
  refine ⟨?_, ?_, ?_, hlt⟩
  · intro ag currKey R pk pa i currVec prevVec m oldQ hprev hidx hcurr hmax hpv hold
    have hu : updateQTable ag currKey R =
        some (save { ag with q := vset ag.q pk (prevVec.set i (qUpdate oldQ R m)) }) := by
      simp only [updateQTable, hprev, hidx, hcurr, hmax, hpv, hold]
    have hv : qUpdate oldQ R m = (1 - 1 / 10) * oldQ + 1 / 10 * (R + 6 / 10 * m) := by
      simp only [qUpdate, alpha, gamma]
    refine ⟨_, hu, ?_⟩
    simp only [save]
    rw [vlookup_vset_self, hv]
  · rw [hstep 0]
    norm_num
  · refine strictMono_nat_of_lt_succ fun n => ?_
    have h1 : qIter (n + 1) = 9 / 10 * qIter n + 1 := hstep (qIter n)
    have h2 := hlt n
    rw [h1]
    linarith

/-- Witness for C3: one concrete update on `c3Agent` with `R = 10`. -/
theorem updateQTable_formula_witness :
    ∃ ag', updateQTable c3Agent "t" 10 = some ag' ∧
      vlookup ag'.q "s" =
        some ([2, 0, 0, 0, 0].set 1 ((1 - 1 / 10) * 0 + 1 / 10 * (10 + 6 / 10 * 4))) :=
  updateQTable_formula.1 c3Agent "t" 10 "s" "d" 1 [0, 4, 0, 0, 0] [2, 0, 0, 0, 0] 4 0
    rfl (by decide) (by simp [c3Agent, vlookup])
    (by simp [listMax]) (by simp [c3Agent, vlookup])
    (by simp)

/-- The agent produced by the witness update on `c3Agent`. -/
def c3Post : AgentS :=
  ⟨[("s", [2, 0, 0, 0, 0].set 1 (qUpdate 0 10 4)), ("t", [0, 4, 0, 0, 0])],
   some [("s", [2, 0, 0, 0, 0].set 1 (qUpdate 0 10 4)), ("t", [0, 4, 0, 0, 0])],
   some ("s", "d"), none⟩

/-- Claim C8: a successful update touches exactly one scalar: every other key
keeps its vector, every other index of the prior key's vector keeps its value
(and the vector keeps its length), and the table is persisted afterwards. -/
theorem updateQTable_frame (ag : AgentS) (currKey : String) (R : ℚ) (ag' : AgentS)
    (h : updateQTable ag currKey R = some ag') :
    ag'.file = some ag'.q ∧
    ∃ pk pa i prevVec,
      ag.prev = some (pk, pa) ∧
      actionToIndex pa = some i ∧
      vlookup ag.q pk = some prevVec ∧
      (∀ k, k ≠ pk → vlookup ag'.q k = vlookup ag.q k) ∧
      ∃ newVec, vlookup ag'.q pk = some newVec ∧
        newVec.length = prevVec.length ∧
        ∀ j, j ≠ i → newVec[j]? = prevVec[j]? := by
  unfold updateQTable at h
  split at h
  · exact absurd h (by simp)
  next pk pa hprev =>
    split at h
    · exact absurd h (by simp)
    next i hidx =>
      split at h
      · exact absurd h (by simp)
      next currVec hcurr =>
        split at h
        · exact absurd h (by simp)
        next m hmax =>
          split at h
          · exact absurd h (by simp)
          next prevVec hpv =>
            split at h
            · exact absurd h (by simp)
            next oldQ hold =>
              injection h with h
              subst h
              refine ⟨rfl, pk, pa, i, prevVec, hprev, hidx, hpv, ?_, ?_⟩
              · intro k hk
                exact vlookup_vset_ne ag.q pk k _ hk
              · refine ⟨_, vlookup_vset_self ag.q pk _, List.length_set .., ?_⟩
                intro j hj
                exact List.getElem?_set_ne (Ne.symm hj)

/-- Witness for C8: the concrete update on `c3Agent` yields `c3Post` and the
frame conditions hold there. -/
theorem updateQTable_frame_witness :
    c3Post.file = some c3Post.q ∧
    ∃ pk pa i prevVec,
      c3Agent.prev = some (pk, pa) ∧
      actionToIndex pa = some i ∧
      vlookup c3Agent.q pk = some prevVec ∧
      (∀ k, k ≠ pk → vlookup c3Post.q k = vlookup c3Agent.q k) ∧
      ∃ newVec, vlookup c3Post.q pk = some newVec ∧
        newVec.length = prevVec.length ∧
        ∀ j, j ≠ i → newVec[j]? = prevVec[j]? :=
  updateQTable_frame c3Agent "t" 10 c3Post
    (by simp [updateQTable, c3Agent, c3Post, vlookup, actionToIndex,
      listMax, vset, save])

/-! ## Lemmas about `listMax` and `idxOf` -/

theorem listMax_isSome (x : ℚ) (xs : List ℚ) : (listMax (x :: xs)).isSome := by
  simp only [listMax]
  cases listMax xs <;> simp

theorem listMax_le : ∀ {l : List ℚ} {m : ℚ}, listMax l = some m → ∀ y ∈ l, y ≤ m := by
  intro l
  induction l with
  | nil => intro m hm y hy; simp at hy
  | cons x xs ih =>
    intro m hm y hy
    simp only [listMax] at hm
    cases hxs : listMax xs with
    | none =>
      simp only [hxs] at hm
      injection hm with hm
      subst hm
      have hnil : xs = [] := by
        cases xs with
        | nil => rfl
        | cons a as =>
          have := listMax_isSome a as
          rw [hxs] at this
          simp at this
      subst hnil
      simp at hy
      subst hy
      exact le_refl _
    | some mTail =>
      simp only [hxs] at hm
      injection hm with hm
      subst hm
      rcases List.mem_cons.mp hy with rfl | hy'
      · exact le_max_left _ _
      · exact le_trans (ih hxs y hy') (le_max_right _ _)

theorem listMax_mem : ∀ {l : List ℚ} {m : ℚ}, listMax l = some m → m ∈ l := by
  intro l
  induction l with
  | nil => intro m hm; simp [listMax] at hm
  | cons x xs ih =>
    intro m hm
    simp only [listMax] at hm
    cases hxs : listMax xs with
    | none =>
      simp only [hxs] at hm
      injection hm with hm
      subst hm
      simp
    | some mTail =>
      simp only [hxs] at hm
      injection hm with hm
      subst hm
      rcases max_choice x mTail with h | h <;> rw [h]
      · simp
      · exact List.mem_cons_of_mem _ (ih hxs)

theorem idxOf_spec : ∀ {l : List ℚ} {x : ℚ} {i : Nat}, idxOf x l = some i →
    i < l.length ∧ l[i]? = some x ∧ ∀ j, j < i → l[j]? ≠ some x := by
  intro l
  induction l with
  | nil => intro x i h; simp [idxOf] at h
  | cons y ys ih =>
    intro x i h
    simp only [idxOf] at h
    by_cases hxy : y = x
    · rw [if_pos hxy] at h
      injection h with h
      subst h
      refine ⟨by simp, by simp [hxy], ?_⟩
      intro j hj
      omega
    · rw [if_neg hxy] at h
      cases hi : idxOf x ys with
      | none => rw [hi] at h; simp at h
      | some iTail =>
        rw [hi] at h
        simp only [Option.map] at h
        injection h with h
        subst h
        obtain ⟨h1, h2, h3⟩ := ih hi
        refine ⟨by simpa using h1, by simpa using h2, ?_⟩
        intro j hj
        cases j with
        | zero => simp [hxy]
        | succ jt =>
          have := h3 jt (by omega)
          simpa using this

theorem idxOf_isSome_of_mem : ∀ {l : List ℚ} {x : ℚ}, x ∈ l → (idxOf x l).isSome := by
  intro l
  induction l with
  | nil => intro x hx; simp at hx
  | cons y ys ih =>
    intro x hx
    simp only [idxOf]
    by_cases hxy : y = x
    · simp [hxy]
    · rw [if_neg hxy]
      rcases List.mem_cons.mp hx with rfl | hmem
      · exact absurd rfl hxy
      · have hTail := ih hmem
        cases hi : idxOf x ys with
        | none => rw [hi] at hTail; simp at hTail
        | some iTail => simp [hi]

/-- Claim C6: the greedy selection returns the action, in the canonical order
`ACTIONS = [u, d, l, r, _]`, at the index of a maximal entry that is strictly
the first such index (all earlier entries are strictly smaller); it is a pure
function, so the tie-break is deterministic. -/
theorem pickBestAction_first_max (q : VTable) (key : String) (vals : List ℚ)
    (hq : vlookup q key = some vals) (hlen : vals.length = 5) :
    ∃ i m, i < 5 ∧ vals[i]? = some m ∧
      pickBestAction q key = ACTIONS[i]? ∧
      (∀ y ∈ vals, y ≤ m) ∧
      ∀ j, j < i → ∀ y, vals[j]? = some y → y < m := by
  obtain ⟨x, xs, rfl⟩ : ∃ x xs, vals = x :: xs := by
    cases vals with
    | nil => simp at hlen
    | cons a as => exact ⟨a, as, rfl⟩
  cases hm : listMax (x :: xs) with
  | none =>
    have := listMax_isSome x xs
    rw [hm] at this
    simp at this
  | some m =>
    have hmem := listMax_mem hm
    have hisx := idxOf_isSome_of_mem hmem
    cases hi : idxOf m (x :: xs) with
    | none => rw [hi] at hisx; simp at hisx
    | some i =>
      obtain ⟨h1, h2, h3⟩ := idxOf_spec hi
      refine ⟨i, m, by rw [hlen] at h1; exact h1, h2, ?_, listMax_le hm, ?_⟩
      · simp only [pickBestAction, hq, hm, hi]
      · intro j hj y hy
        have hne : (x :: xs)[j]? ≠ some m := h3 j hj
        have hymem : y ∈ x :: xs := by
          obtain ⟨hjl, hje⟩ := List.getElem?_eq_some.mp hy
          exact hje ▸ List.getElem_mem hjl
        have hle : y ≤ m := listMax_le hm y hymem
        have hne' : y ≠ m := fun hc => hne (hc ▸ hy)
        exact lt_of_le_of_ne hle hne'

/-- A one-key table whose value vector has its maximum `7` at the two tied
indices `1` and `2`. -/
def tieTable : VTable := [("k", [3, 7, 7, 1, 0])]

/-- Witness for C6: on the tied vector `[3, 7, 7, 1, 0]` the selection is
`"d"`, the action at the first maximal index. -/
theorem pickBestAction_first_max_witness :
    pickBestAction tieTable "k" = some "d" ∧
    ∃ i m, i < 5 ∧ ([3, 7, 7, 1, 0] : List ℚ)[i]? = some m ∧
      pickBestAction tieTable "k" = ACTIONS[i]? ∧
      (∀ y ∈ ([3, 7, 7, 1, 0] : List ℚ), y ≤ m) ∧
      ∀ j, j < i → ∀ y, ([3, 7, 7, 1, 0] : List ℚ)[j]? = some y → y < m :=
  ⟨by
     simp [pickBestAction, tieTable, vlookup, listMax, idxOf, ACTIONS]
     norm_num,
   pickBestAction_first_max tieTable "k" [3, 7, 7, 1, 0]
     (by simp [tieTable, vlookup]) (by simp)⟩

/-- Claim C9: the state key is a function of the 20-cell window alone: any two
raw states with identical windows (symbols with `'_'` for absent cells) get
equal keys, whatever their other fields or out-of-window cells. -/
theorem compute_key_window (s1 s2 : RawState) (h : window s1 = window s2) :
    compute_key s1 = compute_key s2 := by
  unfold compute_key
  rw [h]

/-- A raw state with a single occupant directly ahead of the agent. -/
def s9a : RawState :=
  ⟨0, 0, fun x y => if x = 0 ∧ y = -1 then some 'C' else none, false, false, 3⟩

/-- A raw state with the same window as `s9a` but a different agent position,
an extra occupant far outside the window, and different flags and score. -/
def s9b : RawState :=
  ⟨5, 7, fun x y =>
    if x = 5 ∧ y = 6 then some 'C'
    else if x = 100 ∧ y = 100 then some 'X' else none, true, true, 99⟩

/-- Witness for C9: `s9a` and `s9b` differ in score and in a far-away cell but
share the window, hence the key. -/
theorem compute_key_window_witness :
    compute_key s9a = compute_key s9b ∧
    s9a.score ≠ s9b.score ∧
    s9a.get 100 100 ≠ s9b.get 100 100 :=
  ⟨compute_key_window s9a s9b (by decide),
   by norm_num [s9a, s9b],
   by decide⟩

/-- A table whose greedy action at `"k"` is `"u"` (value `10`), narrowly ahead
of `"d"` (value `99/10`). -/
def c2Table : VTable := [("k", [10, 99 / 10, 0, 0, 0])]

/-- An agent over `c2Table` whose prior transition is `("k", "u")`, so the
prior key coincides with the current key `"k"`. -/
def c2Agent : AgentS := ⟨c2Table, some c2Table, some ("k", "u"), some "t"⟩

/-- The agent after the TD update of the prior pair `("k", "u")` with `R = 0`:
entry `0` drops from `10` to `48/5`, below entry `1`. -/
def c2Post : AgentS :=
  ⟨[("k", [48 / 5, 99 / 10, 0, 0, 0])],
   some [("k", [48 / 5, 99 / 10, 0, 0, 0])],
   some ("k", "u"), some "t"⟩

/-- Counterexample to claim C2 as stated: on `c2Agent` (prior key = current
key = `"k"`), `qLearning` returns `"u"`, while the selection computed over the
post-update table with the same draw is `"d"`: the returned action does not
reflect the just-updated value vector. -/
theorem qLearningK_counterexample :
    qLearningK c2Agent epsilon 5 0 "k" 0 = Except.ok ("u", c2Post) ∧
    findBestAction c2Post.q epsilon 5 0 "k" = some "d" ∧
    ("u" : String) ≠ "d" := by
  refine ⟨?_, ?_, by decide⟩
  · simp [qLearningK, c2Agent, c2Table, c2Post, vlookup, findBestAction, epsilon,
      pickBestAction, listMax, idxOf, ACTIONS, updateQTable, actionToIndex,
      vset, save, qUpdate, alpha, gamma]
    norm_num
  · simp [findBestAction, epsilon, c2Post, pickBestAction, vlookup, listMax,
      idxOf, ACTIONS]
    norm_num

/-- Claim C2 (amended): on every tick with a prior transition, the new action
is selected *before* the TD update, over the pre-update table; the update is
applied afterwards, so the returned action is independent of it (in
particular, when the prior key equals the current key, the returned action
does not reflect the just-updated value vector). -/
theorem qLearningK_selects_pre_update (ag : AgentS) (eps : ℚ) (rand : Nat)
    (rc : Fin 5) (key : String) (R : ℚ) (a : String) (ag' : AgentS)
    (h : qLearningK ag eps rand rc key R = Except.ok (a, ag')) :
    findBestAction ag.q eps rand rc key = some a ∧
    updateQTable ag key R = some ag' := by
  unfold qLearningK at h
  split at h
  · cases hf : findBestAction ag.q eps rand rc key with
    | none =>
      rw [hf] at h
      exact absurd h (by simp)
    | some action =>
      rw [hf] at h
      cases hu : updateQTable ag key R with
      | none =>
        rw [hu] at h
        exact absurd h (by simp)
      | some ag2 =>
        rw [hu] at h
        simp only [Except.ok.injEq, Prod.mk.injEq] at h
        obtain ⟨rfl, rfl⟩ := h
        exact ⟨rfl, rfl⟩
  · exact absurd h (by simp)

/-- Witness for the amended C2 at the concrete `c2Agent` transition. -/
theorem qLearningK_selects_pre_update_witness :
    findBestAction c2Agent.q epsilon 5 0 "k" = some "u" ∧
    updateQTable c2Agent "k" 0 = some c2Post :=
  qLearningK_selects_pre_update c2Agent epsilon 5 0 "k" 0 "u" c2Post
    (by
      simp [qLearningK, c2Agent, c2Table, c2Post, vlookup, findBestAction, epsilon,
        pickBestAction, listMax, idxOf, ACTIONS, updateQTable, actionToIndex,
        vset, save, qUpdate, alpha, gamma]
      norm_num)

/-- After the get-or-initialize step the key is always present in the
table. -/
theorem getOrInit_isSome (ag : AgentS) (key : String) :
    (vlookup (getOrInit ag key).q key).isSome := by
  unfold getOrInit
  by_cases h : (vlookup ag.q key).isSome
  · simp [h]
  · simp [h, addNewStateToQTable, save, vlookup_vset_self]

/-- With its guard satisfied, `qLearning` never reports the unbound-variable
failure. -/
theorem qLearningK_ne_unbound_of_isSome (ag : AgentS) (eps : ℚ) (rand : Nat)
    (rc : Fin 5) (key : String) (R : ℚ)
    (h : (vlookup ag.q key).isSome) :
    qLearningK ag eps rand rc key R ≠ Except.error QErr.unboundAction := by
  unfold qLearningK
  rw [if_pos h]
  cases hf : findBestAction ag.q eps rand rc key with
  | none => simp [hf]
  | some a =>
    cases hu : updateQTable ag key R with
    | none => simp [hf, hu]
    | some ag2 => simp [hf, hu]

/-- Claim C10: the unassigned-`action` failure of `qLearning` fires exactly
when the current key is absent from the table, and `choose_action`, which has
just inserted the current key if it was absent, can never trigger it. -/
theorem choose_action_no_unbound :
    (∀ (ag : AgentS) (eps : ℚ) (rand : Nat) (rc : Fin 5) (key : String) (R : ℚ),
      vlookup ag.q key = none →
      qLearningK ag eps rand rc key R = Except.error QErr.unboundAction) ∧
    (∀ (ag : AgentS) (eps : ℚ) (rand : Nat) (rc : Fin 5) (s : RawState),
      choose_action ag eps rand rc s ≠ Except.error QErr.unboundAction) := by
  constructor
  · intro ag eps rand rc key R h
    simp [qLearningK, h]
  · intro ag eps rand rc s hcontra
    simp only [choose_action] at hcontra
    cases hp : (getOrInit ag (compute_key s)).prev with
    | none =>
      simp only [hp] at hcontra
      cases hf : findBestAction (getOrInit ag (compute_key s)).q eps rand rc
          (compute_key s) with
      | none => simp [hf] at hcontra
      | some a => simp [hf] at hcontra
    | some pr =>
      simp only [hp] at hcontra
      cases hq : qLearning (getOrInit ag (compute_key s)) eps rand rc s with
      | error e =>
        simp only [hq, Except.error.injEq] at hcontra
        subst hcontra
        exact qLearningK_ne_unbound_of_isSome (getOrInit ag (compute_key s)) eps rand rc
          (compute_key s) (reward s) (getOrInit_isSome ag (compute_key s)) hq
      | ok p => simp [hq] at hcontra

/-- Witness for C10: on the empty table the unbound-variable path is reached
by a bare `qLearning` call, but never through `choose_action`. -/
theorem choose_action_no_unbound_witness :
    qLearningK agEmpty epsilon 0 0 "k" 0 = Except.error QErr.unboundAction ∧
    choose_action agEmpty epsilon 0 0 sMid ≠ Except.error QErr.unboundAction :=
  ⟨choose_action_no_unbound.1 agEmpty epsilon 0 0 "k" 0 rfl,
   choose_action_no_unbound.2 agEmpty epsilon 0 0 sMid⟩

end Frogger
